import Mathlib

/-!
Verification of the conference-organization backend (`conference.py`,
`models.py`).  The development shallowly embeds the core logic named by the
specification: the transactional registration ledger
(`_conferenceRegistration`), the filter compiler (`_formatFilters` and
`_getQuery`), the two-query intersector (`_intersectQueries`), the featured
speaker cache update (`_updateFeaturedSpeakers`) and the session speaker
add/remove operation (`_updateSpeakerForSession`).  Datastore entities are
records, websafe keys are strings, fallible code returns `Except`, and the
datastore transaction either commits the returned entities or leaves the
pre-state untouched.
-/

/-- Entity `Profile` (`models.py`): only the field the registration ledger
touches, the repeated string property `conferenceKeysToAttend`. -/
structure Profile where
  conferenceKeysToAttend : List String
deriving DecidableEq, Repr

/-- Entity `Conference` (`models.py`): only the field the registration ledger
touches, the integer property `seatsAvailable`. -/
structure Conference where
  seatsAvailable : Int
deriving DecidableEq, Repr

/-- The two `ConflictException` messages `_conferenceRegistration` can raise. -/
inductive RegError where
  | alreadyRegistered
  | seatsUnavailable
deriving DecidableEq, Repr

/-- Method `ConferenceApi._conferenceRegistration` (conference.py:1157-1204), the body
inside the `@ndb.transactional(xg=True)` decorator, restricted to the state it
mutates.  `reg = true` registers, `reg = false` unregisters; on success the new
`Profile` and `Conference` are committed together and the `BooleanMessage`
payload is returned; an exception aborts the transaction. -/
def conferenceRegistration (reg : Bool) (prof : Profile) (wsck : String)
    (conf : Conference) : Except RegError (Profile × Conference × Bool) :=
  if reg then
    if wsck ∈ prof.conferenceKeysToAttend then
      .error .alreadyRegistered
    else if conf.seatsAvailable ≤ 0 then
      .error .seatsUnavailable
    else
      .ok (⟨prof.conferenceKeysToAttend ++ [wsck]⟩,
           ⟨conf.seatsAvailable - 1⟩, true)
  else
    if wsck ∈ prof.conferenceKeysToAttend then
      .ok (⟨prof.conferenceKeysToAttend.erase wsck⟩,
           ⟨conf.seatsAvailable + 1⟩, true)
    else
      .ok (prof, conf, false)

/-- Datastore effect of the transaction wrapping `_conferenceRegistration`:
on success both `put` calls commit, on an exception the cross-group
transaction rolls back and both entities keep their pre-state. -/
def applyRegistration (reg : Bool) (prof : Profile) (wsck : String)
    (conf : Conference) : Profile × Conference :=
  match conferenceRegistration reg prof wsck conf with
  | .ok (p, c, _) => (p, c)
  | .error _ => (prof, conf)

/-- Message `ConferenceQueryForm` (`models.py`): a raw user-supplied filter triple. -/
structure QueryFilter where
  field : String
  operator : String
  value : String
deriving DecidableEq, Repr

/-- A filter after `_formatFilters` mapped its tokens: store property name,
store operator symbol, still-raw string value. -/
structure FormattedFilter where
  field : String
  operator : String
  value : String
deriving DecidableEq, Repr

/-- The failures of the filter compiler: the two distinct
`BadRequestException` messages of `_formatFilters` and the uncaught
`ValueError` that `int()` raises in `_getQuery` (the spec's TypeMismatch). -/
inductive FilterError where
  | invalidFilter
  | inequalityConflict
  | typeMismatch
deriving DecidableEq, Repr

/-- The `FIELDS` dict (conference.py:94-99). -/
def FIELDS (s : String) : Option String :=
  if s = "CITY" then some "city"
  else if s = "TOPIC" then some "topics"
  else if s = "MONTH" then some "month"
  else if s = "MAX_ATTENDEES" then some "maxAttendees"
  else none

/-- The `OPERATORS` dict (conference.py:85-92). -/
def OPERATORS (s : String) : Option String :=
  if s = "EQ" then some "="
  else if s = "GT" then some ">"
  else if s = "GTEQ" then some ">="
  else if s = "LT" then some "<"
  else if s = "LTEQ" then some "<="
  else if s = "NE" then some "!="
  else none

/-- Loop of `_formatFilters` (conference.py:345-375).  The first argument is
the running `inequality_field`; each filter has its tokens mapped through
`FIELDS`/`OPERATORS` (a `KeyError` becomes `invalidFilter`), a non-`=`
operator on a second distinct field raises `inequalityConflict`, and the
formatted filters are accumulated in input order. -/
def formatFiltersAux (ineq : Option String) :
    List QueryFilter → Except FilterError (Option String × List FormattedFilter)
  | [] => .ok (ineq, [])
  | f :: rest =>
    match FIELDS f.field, OPERATORS f.operator with
    | some fld, some op =>
      if op = "=" then
        match formatFiltersAux ineq rest with
        | .ok (r, out) => .ok (r, ⟨fld, op, f.value⟩ :: out)
        | .error e => .error e
      else
        match ineq with
        | some g =>
          if g = fld then
            match formatFiltersAux (some fld) rest with
            | .ok (r, out) => .ok (r, ⟨fld, op, f.value⟩ :: out)
            | .error e => .error e
          else .error .inequalityConflict
        | none =>
          match formatFiltersAux (some fld) rest with
          | .ok (r, out) => .ok (r, ⟨fld, op, f.value⟩ :: out)
          | .error e => .error e
    | _, _ => .error .invalidFilter

/-- Method `ConferenceApi._formatFilters` (conference.py:345-375): returns the
inequality field (if any) together with the formatted filters. -/
def formatFilters (filters : List QueryFilter) :
    Except FilterError (Option String × List FormattedFilter) :=
  formatFiltersAux none filters

/-- Both tokens of a raw filter are recognized by the `FIELDS` and
`OPERATORS` dicts. -/
def validTokens (f : QueryFilter) : Bool :=
  (FIELDS f.field).isSome && (OPERATORS f.operator).isSome

/-- The filter's operator token maps to a non-equality store operator. -/
def isIneqFilter (f : QueryFilter) : Bool :=
  match OPERATORS f.operator with
  | some op => op ≠ "="
  | none => false

/-- A typed filter value: `_getQuery` converts values of the numeric fields
with `int()` and leaves the rest as strings. -/
inductive FilterValue where
  | str (s : String)
  | int (n : Int)
deriving DecidableEq, Repr

/-- An `ndb.query.FilterNode(field, operator, value)` as built by
`_getQuery`. -/
structure FilterNode where
  field : String
  operator : String
  value : FilterValue
deriving DecidableEq, Repr

/-- The query descriptor `_getQuery` assembles: ordering properties (in the
order the `q.order` calls apply them) and the AND-combined filter nodes. -/
structure QueryDescriptor where
  orders : List String
  clauses : List FilterNode
deriving DecidableEq, Repr

/-- Value of a decimal digit list, most significant first. -/
def digitsToNat : List Char → Nat → Nat
  | [], acc => acc
  | c :: cs, acc => digitsToNat cs (acc * 10 + (c.toNat - 48))

/-- Python's `int(str)`: optional surrounding whitespace, optional sign, then
a non-empty run of decimal digits; anything else raises `ValueError`. -/
def pythonInt (s : String) : Option Int :=
  let cs := ((s.toList.dropWhile Char.isWhitespace).reverse.dropWhile
    Char.isWhitespace).reverse
  match cs with
  | [] => none
  | '-' :: ds =>
    if ds ≠ [] ∧ ds.all Char.isDigit then some (-(digitsToNat ds 0 : Int))
    else none
  | '+' :: ds =>
    if ds ≠ [] ∧ ds.all Char.isDigit then some ((digitsToNat ds 0 : Int))
    else none
  | ds =>
    if ds.all Char.isDigit then some ((digitsToNat ds 0 : Int)) else none

/-- Value conversion of the `_getQuery` loop body (conference.py:336-337):
values of the numeric store fields `month` and `maxAttendees` go through
`int()`, whose `ValueError` surfaces as `typeMismatch`. -/
def convertValue (fld : String) (v : String) : Except FilterError FilterValue :=
  if fld = "month" ∨ fld = "maxAttendees" then
    match pythonInt v with
    | some n => .ok (.int n)
    | none => .error .typeMismatch
  else .ok (.str v)

/-- The `for filtr in filters` loop of `_getQuery` (conference.py:335-342):
convert each value, build the `FilterNode`s in order, stop at the first
conversion failure. -/
def buildClauses : List FormattedFilter → Except FilterError (List FilterNode)
  | [] => .ok []
  | f :: rest =>
    match convertValue f.field f.value with
    | .ok v =>
      match buildClauses rest with
      | .ok cs => .ok (⟨f.field, f.operator, v⟩ :: cs)
      | .error e => .error e
    | .error e => .error e

/-- The `q.order` calls of `_getQuery` (conference.py:328-333): the
inequality field first when one exists, then always `Conference.name`. -/
def queryOrders (ineq : Option String) : List String :=
  match ineq with
  | none => ["name"]
  | some fld => [fld, "name"]

/-- Method `ConferenceApi._getQuery` (conference.py:322-343): format the filters,
apply the ordering, then attach the typed filter nodes. -/
def getQuery (filters : List QueryFilter) : Except FilterError QueryDescriptor :=
  match formatFilters filters with
  | .error e => .error e
  | .ok (ineq, fs) =>
    match buildClauses fs with
    | .ok cs => .ok ⟨queryOrders ineq, cs⟩
    | .error e => .error e

/-- The key set `set(q1.fetch(keys_only=True)) & set(q2.fetch(keys_only=True))`
of `_intersectQueries`: each key once, kept iff it occurs in both fetches. -/
def intersectKeys (q1 q2 : List String) : List String :=
  q1.dedup.filter (fun k => k ∈ q2)

/-- Method `ConferenceApi._intersectQueries` (conference.py:412-417): fetch both
queries keys-only, intersect as sets, resolve the surviving keys through the
datastore (`ndb.get_multi`), dropping keys with no entity. -/
def intersectQueries {E : Type} (store : String → Option E)
    (q1 q2 : List String) : List E :=
  (intersectKeys q1 q2).filterMap store

/-- A speaker's schedule within one conference as `_getSpeakerSchedule`
computes it: the speaker's display name and the mapping from each of the
speaker's session websafe keys in that conference to the session name. -/
structure SpeakerSchedule where
  name : String
  sessions : List (String × String)
deriving DecidableEq, Repr

/-- The decoded value of one conference's featured-speaker memcache entry: a
JSON object mapping speaker websafe keys to schedules, keys unique. -/
abbrev FeaturedMap := List (String × SpeakerSchedule)

/-- Python dict update `featured[k] = v`: replace the existing entry for `k`
in place, or append a new one. -/
def upsertFeatured (k : String) (v : SpeakerSchedule) : FeaturedMap → FeaturedMap
  | [] => [(k, v)]
  | (k', v') :: rest =>
    if k' = k then (k, v) :: rest else (k', v') :: upsertFeatured k v rest

/-- Python dict removal `del featured[k]` guarded by `k in featured` (keys
are unique, so filtering every pair with key `k` is the same operation). -/
def removeFeatured (k : String) (m : FeaturedMap) : FeaturedMap :=
  m.filter (fun e => e.1 ≠ k)

/-- Python dict lookup `featured[k]` / `k in featured`. -/
def lookupFeatured (k : String) : FeaturedMap → Option SpeakerSchedule
  | [] => none
  | (k', v) :: rest => if k' = k then some v else lookupFeatured k rest

/-- Method `ConferenceApi._updateFeaturedSpeakers` (conference.py:525-561) for one
conference: `cached` is the decoded memcache value (`none` when the key is
absent), `speakerWsk` the schedule's single key.  Result `some (m, ttl)`
models `memcache.set(key, json.dumps(m), time=ttl)`, result `none` models
`memcache.delete(key)`. -/
def updateFeaturedSpeakers (cached : Option FeaturedMap) (speakerWsk : String)
    (schedule : SpeakerSchedule) : Option (FeaturedMap × Nat) :=
  let featured := cached.getD []
  let featured' :=
    if 1 < schedule.sessions.length then upsertFeatured speakerWsk schedule featured
    else removeFeatured speakerWsk featured
  if featured' ≠ [] then some (featured', 86400) else none

/-- Whether a speaker has an entry in the cache state left by
`updateFeaturedSpeakers`. -/
def featuredEntryPresent (c : Option (FeaturedMap × Nat)) (k : String) : Bool :=
  match c with
  | none => false
  | some (m, _) => (lookupFeatured k m).isSome

/-- Observable outcome of `_updateSpeakerForSession` on its session: the new
speakers list, whether `session.put()` ran, and whether a
`set_featured_speakers` task was enqueued. -/
structure SpeakerUpdate where
  speakers : List String
  wrote : Bool
  enqueued : Bool
deriving DecidableEq, Repr

/-- Method `ConferenceApi._updateSpeakerForSession` (conference.py:695-742) acting on
the session's `speakers` list.  `scheduleCount` is the size of the speaker's
recomputed schedule in the session's conference (read from the datastore after
the mutation); the add branch enqueues the featured-speaker task when it
exceeds 1, the remove branch when it is below 2, and the no-op branches touch
nothing. -/
def updateSpeakerForSession (add : Bool) (spkr : String) (scheduleCount : Nat)
    (speakers : List String) : SpeakerUpdate :=
  if add then
    if spkr ∉ speakers then
      ⟨speakers ++ [spkr], true, decide (1 < scheduleCount)⟩
    else ⟨speakers, false, false⟩
  else
    if spkr ∈ speakers then
      ⟨speakers.erase spkr, true, decide (scheduleCount < 2)⟩
    else ⟨speakers, false, false⟩

/-- C1: register fails with AlreadyRegistered when the conference key is
already in the profile's attendance list, fails with SeatsUnavailable when no
seats are available — both leaving profile and conference unchanged via the
transaction rollback — and otherwise appends the key, decrements
`seatsAvailable` by exactly 1, and commits both entities in the one
transaction result. -/
theorem registration_register_spec (prof : Profile) (wsck : String)
    (conf : Conference) :
    (wsck ∈ prof.conferenceKeysToAttend →
      conferenceRegistration true prof wsck conf = .error .alreadyRegistered ∧
      applyRegistration true prof wsck conf = (prof, conf)) ∧
    (wsck ∉ prof.conferenceKeysToAttend → conf.seatsAvailable ≤ 0 →
      conferenceRegistration true prof wsck conf = .error .seatsUnavailable ∧
      applyRegistration true prof wsck conf = (prof, conf)) ∧
    (wsck ∉ prof.conferenceKeysToAttend → 0 < conf.seatsAvailable →
      conferenceRegistration true prof wsck conf =
        .ok (⟨prof.conferenceKeysToAttend ++ [wsck]⟩,
             ⟨conf.seatsAvailable - 1⟩, true) ∧
      applyRegistration true prof wsck conf =
        (⟨prof.conferenceKeysToAttend ++ [wsck]⟩,
         ⟨conf.seatsAvailable - 1⟩)) := by
  refine ⟨fun h => ?_, fun h hs => ?_, fun h hs => ?_⟩
  · simp [conferenceRegistration, applyRegistration, h]
  · simp [conferenceRegistration, applyRegistration, h, hs]
  · simp [conferenceRegistration, applyRegistration, h, not_le.mpr hs]

/-- Witness for C1: a concrete run of each of the three register outcomes. -/
theorem registration_register_spec_witness :
    conferenceRegistration true ⟨["c1"]⟩ "c1" ⟨5⟩ = .error .alreadyRegistered ∧
    conferenceRegistration true ⟨[]⟩ "c1" ⟨0⟩ = .error .seatsUnavailable ∧
    conferenceRegistration true ⟨[]⟩ "c1" ⟨2⟩ = .ok (⟨["c1"]⟩, ⟨1⟩, true) :=
  ⟨((registration_register_spec ⟨["c1"]⟩ "c1" ⟨5⟩).1 (by decide)).1,
   ((registration_register_spec ⟨[]⟩ "c1" ⟨0⟩).2.1 (by decide) (by decide)).1,
   ((registration_register_spec ⟨[]⟩ "c1" ⟨2⟩).2.2 (by decide) (by decide)).1⟩

/-- C4: unregister with the conference key present removes it, increments
`seatsAvailable` by exactly 1 and returns `true`; with the key absent it
returns `false` without an error and leaves both entities unchanged. -/
theorem registration_unregister_spec (prof : Profile) (wsck : String)
    (conf : Conference) :
    (wsck ∈ prof.conferenceKeysToAttend → prof.conferenceKeysToAttend.Nodup →
      conferenceRegistration false prof wsck conf =
        .ok (⟨prof.conferenceKeysToAttend.erase wsck⟩,
             ⟨conf.seatsAvailable + 1⟩, true) ∧
      wsck ∉ prof.conferenceKeysToAttend.erase wsck) ∧
    (wsck ∉ prof.conferenceKeysToAttend →
      conferenceRegistration false prof wsck conf = .ok (prof, conf, false)) := by
  constructor
  · intro h hnd
    refine ⟨by simp [conferenceRegistration, h], fun hmem => ?_⟩
    exact ((hnd.mem_erase_iff).1 hmem).1 rfl
  · intro h
    simp [conferenceRegistration, h]

/-- Witness for C4: a concrete unregister of a registered and of an
unregistered profile. -/
theorem registration_unregister_spec_witness :
    conferenceRegistration false ⟨["a", "b"]⟩ "a" ⟨3⟩ =
      .ok (⟨["b"]⟩, ⟨4⟩, true) ∧
    conferenceRegistration false ⟨["b"]⟩ "a" ⟨3⟩ =
      .ok (⟨["b"]⟩, ⟨3⟩, false) :=
  ⟨((registration_unregister_spec ⟨["a", "b"]⟩ "a" ⟨3⟩).1 (by decide)
      (by decide)).1,
   (registration_unregister_spec ⟨["b"]⟩ "a" ⟨3⟩).2 (by decide)⟩

/-- C5: with the key absent and a seat free, register followed by unregister
restores the conference's `seatsAvailable` and the profile's attendance list
exactly — a round-trip identity on the (Profile, Conference) state. -/
theorem registration_roundtrip (prof : Profile) (wsck : String)
    (conf : Conference) (h : wsck ∉ prof.conferenceKeysToAttend)
    (hs : 0 < conf.seatsAvailable) :
    ∃ p₁ c₁, conferenceRegistration true prof wsck conf = .ok (p₁, c₁, true) ∧
      conferenceRegistration false p₁ wsck c₁ = .ok (prof, conf, true) := by
  obtain ⟨l⟩ := prof
  obtain ⟨s⟩ := conf
  simp only [Profile.mk.injEq] at h
  refine ⟨⟨l ++ [wsck]⟩, ⟨s - 1⟩, ?_, ?_⟩
  · simp [conferenceRegistration, h, not_le.mpr hs]
  · have hmem : wsck ∈ l ++ [wsck] := by simp
    have herase : (l ++ [wsck]).erase wsck = l := by
      rw [List.erase_append_right _ h, List.erase_cons_head]
      simp
    simp [conferenceRegistration, hmem, herase]

/-- Witness for C5: a concrete register/unregister round trip. -/
theorem registration_roundtrip_witness :
    ∃ p₁ c₁, conferenceRegistration true ⟨[]⟩ "c" ⟨1⟩ = .ok (p₁, c₁, true) ∧
      conferenceRegistration false p₁ "c" c₁ = .ok (⟨[]⟩, ⟨1⟩, true) :=
  registration_roundtrip ⟨[]⟩ "c" ⟨1⟩ (by decide) (by decide)

lemma lookup_upsertFeatured_self (k : String) (v : SpeakerSchedule)
    (m : FeaturedMap) : lookupFeatured k (upsertFeatured k v m) = some v := by
  induction m with
  | nil => simp [upsertFeatured, lookupFeatured]
  | cons e rest ih =>
    obtain ⟨k', v'⟩ := e
    by_cases hk : k' = k
    · simp [upsertFeatured, lookupFeatured, hk]
    · simp [upsertFeatured, lookupFeatured, hk, ih]

lemma upsertFeatured_ne_nil (k : String) (v : SpeakerSchedule)
    (m : FeaturedMap) : upsertFeatured k v m ≠ [] := by
  cases m with
  | nil => simp [upsertFeatured]
  | cons e rest =>
    obtain ⟨k', v'⟩ := e
    by_cases hk : k' = k <;> simp [upsertFeatured, hk]

lemma lookup_removeFeatured_self (k : String) (m : FeaturedMap) :
    lookupFeatured k (removeFeatured k m) = none := by
  induction m with
  | nil => simp [removeFeatured, lookupFeatured]
  | cons e rest ih =>
    obtain ⟨k', v'⟩ := e
    by_cases hk : k' = k
    · simpa [removeFeatured, lookupFeatured, hk] using ih
    · simpa [removeFeatured, lookupFeatured, hk] using ih

/-- C2: after `_updateFeaturedSpeakers` runs for a conference's cache state
with a speaker's recomputed schedule: a schedule of at least 2 sessions is
upserted under the speaker's websafe key and the entry is stored with the
24-hour (86400 s) TTL; a schedule of fewer than 2 sessions leaves the speaker
absent from any stored map, and a map made empty deletes the cache key; so
the speaker's entry exists in the resulting cache state iff the speaker has
strictly more than one session in the conference. -/
theorem featured_update_spec (cached : Option FeaturedMap) (wsk : String)
    (sched : SpeakerSchedule) :
    (1 < sched.sessions.length →
      ∃ m, updateFeaturedSpeakers cached wsk sched = some (m, 86400) ∧
        lookupFeatured wsk m = some sched) ∧
    (sched.sessions.length ≤ 1 →
      (∀ m ttl, updateFeaturedSpeakers cached wsk sched = some (m, ttl) →
        lookupFeatured wsk m = none ∧ ttl = 86400) ∧
      (removeFeatured wsk (cached.getD []) = [] →
        updateFeaturedSpeakers cached wsk sched = none)) ∧
    (featuredEntryPresent (updateFeaturedSpeakers cached wsk sched) wsk = true ↔
      1 < sched.sessions.length) := by
  refine ⟨fun hlen => ?_, fun hlen => ⟨fun m ttl hm => ?_, fun hemp => ?_⟩, ?_⟩
  · exact ⟨upsertFeatured wsk sched (cached.getD []),
      by simp [updateFeaturedSpeakers, hlen, upsertFeatured_ne_nil],
      lookup_upsertFeatured_self wsk sched (cached.getD [])⟩
  · have hnot : ¬ 1 < sched.sessions.length := by omega
    by_cases he : removeFeatured wsk (cached.getD []) = []
    · simp [updateFeaturedSpeakers, hnot, he] at hm
    · simp [updateFeaturedSpeakers, hnot, he] at hm
      obtain ⟨hm1, hm2⟩ := hm
      subst hm1
      exact ⟨lookup_removeFeatured_self wsk (cached.getD []), hm2.symm⟩
  · have hnot : ¬ 1 < sched.sessions.length := by omega
    simp [updateFeaturedSpeakers, hnot, hemp]
  · by_cases hlen : 1 < sched.sessions.length
    · simp [updateFeaturedSpeakers, featuredEntryPresent, hlen,
        upsertFeatured_ne_nil, lookup_upsertFeatured_self]
    · simp only [hlen, iff_false]
      by_cases he : removeFeatured wsk (cached.getD []) = [] <;>
        simp [updateFeaturedSpeakers, featuredEntryPresent, hlen, he,
          lookup_removeFeatured_self]

/-- Witness for C2: a speaker with two sessions gets a cache entry with the
24-hour TTL; dropping to one session on an otherwise empty map deletes the
cache key. -/
theorem featured_update_spec_witness :
    (∃ m, updateFeaturedSpeakers none "spk"
        ⟨"Ada", [("s1", "Intro"), ("s2", "Deep")]⟩ = some (m, 86400) ∧
      lookupFeatured "spk" m = some ⟨"Ada", [("s1", "Intro"), ("s2", "Deep")]⟩) ∧
    updateFeaturedSpeakers (some [("spk", ⟨"Ada", [("s1", "Intro")]⟩)]) "spk"
        ⟨"Ada", [("s1", "Intro")]⟩ = none :=
  ⟨(featured_update_spec none "spk" ⟨"Ada", [("s1", "Intro"), ("s2", "Deep")]⟩).1
      (by decide),
   ((featured_update_spec (some [("spk", ⟨"Ada", [("s1", "Intro")]⟩)]) "spk"
      ⟨"Ada", [("s1", "Intro")]⟩).2.1 (by decide)).2 (by decide)⟩

/-- C7: `_intersectQueries` returns exactly the entities whose keys occur in
both key result sets, resolved through the store; intersecting a query with
itself gives exactly its own (resolved) result set, and an empty key list on
either side yields an empty result rather than an error. -/
theorem intersectQueries_spec {E : Type} (store : String → Option E)
    (q1 q2 : List String) :
    (∀ e, e ∈ intersectQueries store q1 q2 ↔
      ∃ k, k ∈ q1 ∧ k ∈ q2 ∧ store k = some e) ∧
    (∀ e, e ∈ intersectQueries store q1 q1 ↔ ∃ k, k ∈ q1 ∧ store k = some e) ∧
    intersectQueries store [] q2 = [] ∧
    intersectQueries store q1 [] = [] := by
  refine ⟨fun e => ?_, fun e => ?_, ?_, ?_⟩
  · simp only [intersectQueries, intersectKeys, List.mem_filterMap,
      List.mem_filter, List.mem_dedup, decide_eq_true_eq]
    tauto
  · simp only [intersectQueries, intersectKeys, List.mem_filterMap,
      List.mem_filter, List.mem_dedup, decide_eq_true_eq]
    tauto
  · rfl
  · simp [intersectQueries, intersectKeys]

lemma updateSpeakerForSession_nodup (add : Bool) (spkr : String) (n : Nat)
    (l : List String) (h : l.Nodup) :
    (updateSpeakerForSession add spkr n l).speakers.Nodup := by
  cases add
  · by_cases hm : spkr ∈ l
    · simpa [updateSpeakerForSession, hm] using h.erase spkr
    · simpa [updateSpeakerForSession, hm] using h
  · by_cases hm : spkr ∈ l
    · simpa [updateSpeakerForSession, hm] using h
    · simp [updateSpeakerForSession, hm, List.nodup_append, h]

/-- C10: `addSpeakerToSession` with the speaker already present and
`removeSpeakerFromSession` with the speaker absent leave the session's
speakers list unchanged, perform no datastore write and enqueue no
featured-speaker task; consequently a duplicate-free speakers list stays
duplicate-free under every sequence of add/remove operations. -/
theorem speakers_noop_nodup_spec :
    (∀ (spkr : String) (l : List String) (n : Nat), spkr ∈ l →
      updateSpeakerForSession true spkr n l = ⟨l, false, false⟩) ∧
    (∀ (spkr : String) (l : List String) (n : Nat), spkr ∉ l →
      updateSpeakerForSession false spkr n l = ⟨l, false, false⟩) ∧
    (∀ (ops : List (Bool × String × Nat)) (l : List String), l.Nodup →
      (ops.foldl
        (fun s op => (updateSpeakerForSession op.1 op.2.1 op.2.2 s).speakers)
        l).Nodup) := by
  refine ⟨fun spkr l n h => by simp [updateSpeakerForSession, h],
    fun spkr l n h => by simp [updateSpeakerForSession, h], fun ops => ?_⟩
  induction ops with
  | nil => intro l h; simpa using h
  | cons op rest ih =>
    intro l h
    simpa using ih _ (updateSpeakerForSession_nodup op.1 op.2.1 op.2.2 l h)

/-- Witness for C10: concrete no-op add and remove, and a concrete op
sequence preserving freedom from duplicates. -/
theorem speakers_noop_nodup_spec_witness :
    updateSpeakerForSession true "s1" 2 ["s1", "s2"] = ⟨["s1", "s2"], false, false⟩ ∧
    updateSpeakerForSession false "s3" 0 ["s1", "s2"] = ⟨["s1", "s2"], false, false⟩ ∧
    ([(true, "s3", 1), (false, "s1", 0), (true, "s3", 2)].foldl
      (fun s op => (updateSpeakerForSession op.1 op.2.1 op.2.2 s).speakers)
      ["s1", "s2"]).Nodup :=
  ⟨speakers_noop_nodup_spec.1 "s1" ["s1", "s2"] 2 (by decide),
   speakers_noop_nodup_spec.2.1 "s3" ["s1", "s2"] 0 (by decide),
   speakers_noop_nodup_spec.2.2 [(true, "s3", 1), (false, "s1", 0), (true, "s3", 2)]
     ["s1", "s2"] (by decide)⟩

lemma formatFiltersAux_invalid_head (st : Option String) (f : QueryFilter)
    (rest : List QueryFilter) (hf : validTokens f = false) :
    formatFiltersAux st (f :: rest) = .error .invalidFilter := by
  cases hF : FIELDS f.field with
  | none => simp [formatFiltersAux, hF]
  | some fld =>
    cases hO : OPERATORS f.operator with
    | none => simp [formatFiltersAux, hF, hO]
    | some op => simp [validTokens, hF, hO] at hf

lemma formatFiltersAux_cons_ok (st : Option String) (f : QueryFilter)
    (rest : List QueryFilter) (r : Option String) (out : List FormattedFilter)
    (h : formatFiltersAux st (f :: rest) = .ok (r, out)) :
    ∃ fld op st' out',
      FIELDS f.field = some fld ∧ OPERATORS f.operator = some op ∧
      formatFiltersAux st' rest = .ok (r, out') ∧
      out = ⟨fld, op, f.value⟩ :: out' ∧
      ((op = "=" ∧ st' = st) ∨
       (op ≠ "=" ∧ st' = some fld ∧ (st = none ∨ st = some fld))) := by
  cases hF : FIELDS f.field with
  | none => simp [formatFiltersAux, hF] at h
  | some fld =>
  cases hO : OPERATORS f.operator with
  | none => simp [formatFiltersAux, hF, hO] at h
  | some op =>
  simp only [formatFiltersAux, hF, hO] at h
  by_cases hop : op = "="
  · subst hop
    simp only [if_pos rfl] at h
    cases hrec : formatFiltersAux st rest with
    | ok p =>
      obtain ⟨r', out'⟩ := p
      rw [hrec] at h
      simp only [Except.ok.injEq, Prod.mk.injEq] at h
      obtain ⟨rfl, rfl⟩ := h
      exact ⟨fld, "=", st, out', rfl, rfl, hrec, rfl, Or.inl ⟨rfl, rfl⟩⟩
    | error e => rw [hrec] at h; simp at h
  · simp only [if_neg hop] at h
    cases st with
    | some g =>
      by_cases hg : g = fld
      · subst hg
        simp only [if_pos rfl] at h
        cases hrec : formatFiltersAux (some g) rest with
        | ok p =>
          obtain ⟨r', out'⟩ := p
          rw [hrec] at h
          simp only [Except.ok.injEq, Prod.mk.injEq] at h
          obtain ⟨rfl, rfl⟩ := h
          exact ⟨g, op, some g, out', rfl, rfl, hrec, rfl,
            Or.inr ⟨hop, rfl, Or.inr rfl⟩⟩
        | error e => rw [hrec] at h; simp at h
      · simp only [if_neg hg] at h
        simp at h
    | none =>
      cases hrec : formatFiltersAux (some fld) rest with
      | ok p =>
        obtain ⟨r', out'⟩ := p
        rw [hrec] at h
        simp only [Except.ok.injEq, Prod.mk.injEq] at h
        obtain ⟨rfl, rfl⟩ := h
        exact ⟨fld, op, some fld, out', rfl, rfl, hrec, rfl,
          Or.inr ⟨hop, rfl, Or.inl rfl⟩⟩
      | error e => rw [hrec] at h; simp at h

lemma formatFiltersAux_ok_validTokens :
    ∀ (fs : List QueryFilter) (st : Option String) (r : Option String × List FormattedFilter),
      formatFiltersAux st fs = .ok r → ∀ f ∈ fs, validTokens f = true := by
  intro fs
  induction fs with
  | nil => intro st r h f hf; simp at hf
  | cons g rest ih =>
    intro st r h f hf
    obtain ⟨r', out⟩ := r
    obtain ⟨fld, op, st', out', hF, hO, hrec, _, _⟩ :=
      formatFiltersAux_cons_ok _ _ _ _ _ h
    rcases List.mem_cons.mp hf with rfl | hf'
    · simp [validTokens, hF, hO]
    · exact ih st' (r', out') hrec f hf'

lemma formatFiltersAux_some_fixed :
    ∀ (fs : List QueryFilter) (g : String) (r : Option String)
      (out : List FormattedFilter),
      formatFiltersAux (some g) fs = .ok (r, out) → r = some g := by
  intro fs
  induction fs with
  | nil =>
    intro g r out h
    simp only [formatFiltersAux, Except.ok.injEq, Prod.mk.injEq] at h
    exact h.1.symm
  | cons f rest ih =>
    intro g r out h
    obtain ⟨fld, op, st', out', hF, hO, hrec, _, hcase⟩ :=
      formatFiltersAux_cons_ok _ _ _ _ _ h
    rcases hcase with ⟨_, rfl⟩ | ⟨_, rfl, hst⟩
    · exact ih g r out' hrec
    · rcases hst with h' | h'
      · exact absurd h' (by simp)
      · obtain rfl : g = fld := Option.some.inj h'
        exact ih g r out' hrec

lemma formatFiltersAux_ok_ineq :
    ∀ (fs : List QueryFilter) (st : Option String) (r : Option String)
      (out : List FormattedFilter),
      formatFiltersAux st fs = .ok (r, out) →
      ∀ f ∈ fs, isIneqFilter f = true →
      ∃ fld, FIELDS f.field = some fld ∧ r = some fld := by
  intro fs
  induction fs with
  | nil => intro st r out h f hf; simp at hf
  | cons g rest ih =>
    intro st r out h f hf hi
    obtain ⟨fld, op, st', out', hF, hO, hrec, _, hcase⟩ :=
      formatFiltersAux_cons_ok _ _ _ _ _ h
    rcases List.mem_cons.mp hf with rfl | hf'
    · have hop : op ≠ "=" := by
        simp only [isIneqFilter, hO, ne_eq, decide_not, Bool.not_eq_eq_eq_not,
          Bool.not_true, decide_eq_false_iff_not] at hi
        exact hi
      rcases hcase with ⟨heq, _⟩ | ⟨_, rfl, _⟩
      · exact absurd heq hop
      · exact ⟨fld, hF, formatFiltersAux_some_fixed rest fld r out' hrec⟩
    · exact ih st' r out' hrec f hf' hi

lemma formatFiltersAux_ok_noineq :
    ∀ (fs : List QueryFilter) (st : Option String) (r : Option String)
      (out : List FormattedFilter),
      formatFiltersAux st fs = .ok (r, out) →
      (∀ f ∈ fs, isIneqFilter f = false) → r = st := by
  intro fs
  induction fs with
  | nil =>
    intro st r out h _
    simp only [formatFiltersAux, Except.ok.injEq, Prod.mk.injEq] at h
    exact h.1.symm
  | cons g rest ih =>
    intro st r out h hno
    obtain ⟨fld, op, st', out', hF, hO, hrec, _, hcase⟩ :=
      formatFiltersAux_cons_ok _ _ _ _ _ h
    have hg : isIneqFilter g = false := hno g (List.mem_cons_self g rest)
    have hop : op = "=" := by
      simp only [isIneqFilter, hO, ne_eq, decide_not, Bool.not_eq_false',
        decide_eq_true_eq] at hg
      exact hg
    rcases hcase with ⟨_, rfl⟩ | ⟨hne, _, _⟩
    · exact ih _ r out' hrec (fun f hf => hno f (List.mem_cons_of_mem g hf))
    · exact absurd hop hne

lemma formatFiltersAux_error_conflict :
    ∀ (fs : List QueryFilter) (st : Option String) (e : FilterError),
      (∀ f ∈ fs, validTokens f = true) →
      formatFiltersAux st fs = .error e → e = .inequalityConflict := by
  intro fs
  induction fs with
  | nil => intro st e _ h; simp [formatFiltersAux] at h
  | cons f rest ih =>
    intro st e hvalid h
    have hvf := hvalid f (List.mem_cons_self f rest)
    have hvrest := fun g hg => hvalid g (List.mem_cons_of_mem f hg)
    cases hF : FIELDS f.field with
    | none => simp [validTokens, hF] at hvf
    | some fld =>
    cases hO : OPERATORS f.operator with
    | none => simp [validTokens, hF, hO] at hvf
    | some op =>
    simp only [formatFiltersAux, hF, hO] at h
    by_cases hop : op = "="
    · subst hop
      simp only [if_pos rfl] at h
      cases hrec : formatFiltersAux st rest with
      | ok p => rw [hrec] at h; simp at h
      | error e' =>
        rw [hrec] at h
        simp at h
        subst h
        exact ih _ _ hvrest hrec
    · simp only [if_neg hop] at h
      cases st with
      | some g =>
        by_cases hg : g = fld
        · subst hg
          simp only [if_pos rfl] at h
          cases hrec : formatFiltersAux (some g) rest with
          | ok p => rw [hrec] at h; simp at h
          | error e' =>
            rw [hrec] at h
            simp at h
            subst h
            exact ih _ _ hvrest hrec
        · simp only [if_neg hg, Except.error.injEq] at h
          exact h.symm
      | none =>
        cases hrec : formatFiltersAux (some fld) rest with
        | ok p => rw [hrec] at h; simp at h
        | error e' =>
          rw [hrec] at h
          simp at h
          subst h
          exact ih _ _ hvrest hrec

lemma formatFiltersAux_ok_of_compat :
    ∀ (fs : List QueryFilter) (st : Option String),
      (∀ f ∈ fs, validTokens f = true) →
      (∀ f ∈ fs, ∀ g ∈ fs, isIneqFilter f = true → isIneqFilter g = true →
        f.field = g.field) →
      (∀ f ∈ fs, isIneqFilter f = true → ∀ a, FIELDS f.field = some a →
        st = none ∨ st = some a) →
      ∃ r, formatFiltersAux st fs = .ok r := by
  intro fs
  induction fs with
  | nil => intro st _ _ _; exact ⟨(st, []), rfl⟩
  | cons f rest ih =>
    intro st hvalid hpair hcompat
    have hvf := hvalid f (List.mem_cons_self f rest)
    have hvrest := fun g hg => hvalid g (List.mem_cons_of_mem f hg)
    have hprest : ∀ g ∈ rest, ∀ g' ∈ rest, isIneqFilter g = true →
        isIneqFilter g' = true → g.field = g'.field :=
      fun g hg g' hg' => hpair g (List.mem_cons_of_mem f hg) g'
        (List.mem_cons_of_mem f hg')
    cases hF : FIELDS f.field with
    | none => simp [validTokens, hF] at hvf
    | some fld =>
    cases hO : OPERATORS f.operator with
    | none => simp [validTokens, hF, hO] at hvf
    | some op =>
    by_cases hop : op = "="
    · have hcrest : ∀ g ∈ rest, isIneqFilter g = true → ∀ a,
          FIELDS g.field = some a → st = none ∨ st = some a :=
        fun g hg => hcompat g (List.mem_cons_of_mem f hg)
      obtain ⟨⟨r, out⟩, hrec⟩ := ih st hvrest hprest hcrest
      subst hop
      exact ⟨(r, ⟨fld, "=", f.value⟩ :: out),
        by simp [formatFiltersAux, hF, hO, hrec]⟩
    · have hif : isIneqFilter f = true := by
        simp [isIneqFilter, hO, hop]
      have hcrest : ∀ g ∈ rest, isIneqFilter g = true → ∀ a,
          FIELDS g.field = some a → some fld = none ∨ some fld = some a := by
        intro g hg hig a hFg
        have hfield : f.field = g.field :=
          hpair f (List.mem_cons_self f rest) g (List.mem_cons_of_mem f hg)
            hif hig
        rw [hfield, hFg] at hF
        exact Or.inr hF.symm
      obtain ⟨⟨r, out⟩, hrec⟩ := ih (some fld) hvrest hprest hcrest
      rcases hcompat f (List.mem_cons_self f rest) hif fld hF with hst | hst
      · subst hst
        exact ⟨(r, ⟨fld, op, f.value⟩ :: out),
          by simp [formatFiltersAux, hF, hO, hop, hrec]⟩
      · subst hst
        exact ⟨(r, ⟨fld, op, f.value⟩ :: out),
          by simp [formatFiltersAux, hF, hO, hop, hrec]⟩

lemma FIELDS_cases (a x : String) (ha : FIELDS a = some x) :
    (a = "CITY" ∧ x = "city") ∨ (a = "TOPIC" ∧ x = "topics") ∨
    (a = "MONTH" ∧ x = "month") ∨ (a = "MAX_ATTENDEES" ∧ x = "maxAttendees") := by
  unfold FIELDS at ha
  split_ifs at ha with h1 h2 h3 h4
  · exact Or.inl ⟨h1, (Option.some.inj ha).symm⟩
  · exact Or.inr (Or.inl ⟨h2, (Option.some.inj ha).symm⟩)
  · exact Or.inr (Or.inr (Or.inl ⟨h3, (Option.some.inj ha).symm⟩))
  · exact Or.inr (Or.inr (Or.inr ⟨h4, (Option.some.inj ha).symm⟩))

lemma FIELDS_inj (a b x : String) (ha : FIELDS a = some x)
    (hb : FIELDS b = some x) : a = b := by
  rcases FIELDS_cases a x ha with ⟨h1, h2⟩ | ⟨h1, h2⟩ | ⟨h1, h2⟩ | ⟨h1, h2⟩ <;>
    rcases FIELDS_cases b x hb with ⟨h3, h4⟩ | ⟨h3, h4⟩ | ⟨h3, h4⟩ | ⟨h3, h4⟩ <;>
    subst h1 <;> subst h3 <;> subst h2 <;> simp_all

lemma formatFiltersAux_append_invalid :
    ∀ (fs₁ : List QueryFilter) (st r : Option String)
      (out : List FormattedFilter) (f : QueryFilter) (fs₂ : List QueryFilter),
      formatFiltersAux st fs₁ = .ok (r, out) → validTokens f = false →
      formatFiltersAux st (fs₁ ++ f :: fs₂) = .error .invalidFilter := by
  intro fs₁
  induction fs₁ with
  | nil =>
    intro st r out f fs₂ _ hf
    simpa using formatFiltersAux_invalid_head st f fs₂ hf
  | cons g rest ih =>
    intro st r out f fs₂ h hf
    obtain ⟨fld, op, st', out', hF, hO, hrec, _, hcase⟩ :=
      formatFiltersAux_cons_ok _ _ _ _ _ h
    have htail := ih st' r out' f fs₂ hrec hf
    rcases hcase with ⟨rfl, rfl⟩ | ⟨hop, rfl, hst⟩
    · simp [formatFiltersAux, hF, hO, htail]
    · rcases hst with rfl | rfl
      · simp [formatFiltersAux, hF, hO, hop, htail]
      · simp [formatFiltersAux, hF, hO, hop, htail]

lemma convertValue_error (fld v : String) (e : FilterError)
    (h : convertValue fld v = .error e) : e = .typeMismatch := by
  unfold convertValue at h
  by_cases hnum : fld = "month" ∨ fld = "maxAttendees"
  · rw [if_pos hnum] at h
    cases hp : pythonInt v
    · rw [hp] at h
      simp only [Except.error.injEq] at h
      exact h.symm
    · rw [hp] at h
      simp at h
  · rw [if_neg hnum] at h
    simp at h

lemma buildClauses_ok_int :
    ∀ (fs : List FormattedFilter) (cs : List FilterNode),
      buildClauses fs = .ok cs → ∀ c ∈ cs,
      (c.field = "month" ∨ c.field = "maxAttendees") → ∃ n, c.value = .int n := by
  intro fs
  induction fs with
  | nil =>
    intro cs h c hc
    simp only [buildClauses, Except.ok.injEq] at h
    subst h
    simp at hc
  | cons f rest ih =>
    intro cs h c hc hnum
    simp only [buildClauses] at h
    cases hcv : convertValue f.field f.value with
    | error e => rw [hcv] at h; simp at h
    | ok v =>
      rw [hcv] at h
      cases hbc : buildClauses rest with
      | error e => rw [hbc] at h; simp at h
      | ok cs' =>
        rw [hbc] at h
        simp only [Except.ok.injEq] at h
        subst h
        rcases List.mem_cons.mp hc with rfl | hc'
        · unfold convertValue at hcv
          rw [if_pos hnum] at hcv
          cases hp : pythonInt f.value
          · rw [hp] at hcv; simp at hcv
          · rw [hp] at hcv
            simp only [Except.ok.injEq] at hcv
            exact ⟨_, hcv.symm⟩
        · exact ih cs' hbc c hc' hnum

lemma buildClauses_mem_fail :
    ∀ (fs : List FormattedFilter) (f : FormattedFilter), f ∈ fs →
      (f.field = "month" ∨ f.field = "maxAttendees") → pythonInt f.value = none →
      buildClauses fs = .error .typeMismatch := by
  intro fs
  induction fs with
  | nil => intro f hf; simp at hf
  | cons g rest ih =>
    intro f hf hnum hp
    rcases List.mem_cons.mp hf with rfl | hf'
    · have hcv : convertValue f.field f.value = .error .typeMismatch := by
        unfold convertValue
        rw [if_pos hnum, hp]
      simp [buildClauses, hcv]
    · cases hcv : convertValue g.field g.value with
      | error e =>
        have he := convertValue_error g.field g.value e hcv
        subst he
        simp [buildClauses, hcv]
      | ok v =>
        simp [buildClauses, hcv, ih f hf' hnum hp]

lemma getQuery_ok_inv (filters : List QueryFilter) (d : QueryDescriptor)
    (h : getQuery filters = .ok d) :
    ∃ ineq fs cs, formatFilters filters = .ok (ineq, fs) ∧
      buildClauses fs = .ok cs ∧ d = ⟨queryOrders ineq, cs⟩ := by
  unfold getQuery at h
  split at h
  · simp at h
  · rename_i ineq fs heq
    split at h
    · rename_i cs hbc
      simp only [Except.ok.injEq] at h
      exact ⟨ineq, fs, cs, heq, hbc, h.symm⟩
    · simp at h

/-- C3: with all filter tokens recognized, two filters on distinct field
tokens that both carry non-equality operators make `_formatFilters` fail
with the multiple-inequality-fields error; conversely, when every
non-equality filter targets one single field token, compilation succeeds. -/
theorem formatFilters_inequality_spec :
    (∀ (fs : List QueryFilter) (f g : QueryFilter),
      (∀ x ∈ fs, validTokens x = true) → f ∈ fs → g ∈ fs →
      isIneqFilter f = true → isIneqFilter g = true → f.field ≠ g.field →
      formatFilters fs = .error .inequalityConflict) ∧
    (∀ fs : List QueryFilter, (∀ x ∈ fs, validTokens x = true) →
      (∀ f ∈ fs, ∀ g ∈ fs, isIneqFilter f = true → isIneqFilter g = true →
        f.field = g.field) →
      ∃ r, formatFilters fs = .ok r) := by
  constructor
  · intro fs f g hvalid hf hg hif hig hne
    cases hres : formatFilters fs with
    | ok p =>
      obtain ⟨r, out⟩ := p
      obtain ⟨a, hFa, hra⟩ := formatFiltersAux_ok_ineq fs none r out hres f hf hif
      obtain ⟨b, hFb, hrb⟩ := formatFiltersAux_ok_ineq fs none r out hres g hg hig
      have hab : a = b := by
        rw [hra] at hrb
        exact Option.some.inj hrb
      exact absurd (FIELDS_inj f.field g.field a hFa (hab ▸ hFb)) hne
    | error e =>
      have he := formatFiltersAux_error_conflict fs none e hvalid hres
      rw [he]
  · intro fs hvalid hpair
    exact formatFiltersAux_ok_of_compat fs none hvalid hpair
      (fun f hf hi a hFa => Or.inl rfl)

/-- Witness for C3: city> together with month< conflicts; a valid filter set
whose only inequalities are on the month field compiles. -/
theorem formatFilters_inequality_spec_witness :
    formatFilters [⟨"CITY", "GT", "x"⟩, ⟨"MONTH", "LT", "3"⟩] =
      .error .inequalityConflict ∧
    ∃ r, formatFilters [⟨"CITY", "EQ", "x"⟩, ⟨"MONTH", "LT", "9"⟩,
      ⟨"MONTH", "GT", "2"⟩] = .ok r :=
  ⟨formatFilters_inequality_spec.1 [⟨"CITY", "GT", "x"⟩, ⟨"MONTH", "LT", "3"⟩]
      ⟨"CITY", "GT", "x"⟩ ⟨"MONTH", "LT", "3"⟩ (by decide) (by decide)
      (by decide) (by decide) (by decide) (by decide),
   formatFilters_inequality_spec.2 [⟨"CITY", "EQ", "x"⟩, ⟨"MONTH", "LT", "9"⟩,
      ⟨"MONTH", "GT", "2"⟩] (by decide) (by decide)⟩

/-- C9: a filter whose field token or operator token is not in the fixed
`FIELDS`/`OPERATORS` enumerations makes compilation fail: when the filters
before it compile cleanly the error is exactly the invalid-filter one, and
any filter set containing such a filter fails with some error. -/
theorem formatFilters_invalid_token_spec :
    (∀ (fs₁ : List QueryFilter) (f : QueryFilter) (fs₂ : List QueryFilter)
      (r : Option String) (out : List FormattedFilter),
      validTokens f = false → formatFiltersAux none fs₁ = .ok (r, out) →
      formatFilters (fs₁ ++ f :: fs₂) = .error .invalidFilter) ∧
    (∀ (fs : List QueryFilter) (f : QueryFilter), f ∈ fs →
      validTokens f = false → ∃ e, formatFilters fs = .error e) := by
  constructor
  · intro fs₁ f fs₂ r out hf h
    exact formatFiltersAux_append_invalid fs₁ none r out f fs₂ h hf
  · intro fs f hmem hf
    cases herr : formatFilters fs with
    | error e => exact ⟨e, rfl⟩
    | ok p =>
      have hv := formatFiltersAux_ok_validTokens fs none p herr f hmem
      rw [hv] at hf
      simp at hf

/-- Witness for C9: an unrecognized field token after a valid filter fails
with the invalid-filter error. -/
theorem formatFilters_invalid_token_spec_witness :
    formatFilters [⟨"CITY", "EQ", "a"⟩, ⟨"BAD", "EQ", "x"⟩] =
      .error .invalidFilter :=
  formatFilters_invalid_token_spec.1 [⟨"CITY", "EQ", "a"⟩] ⟨"BAD", "EQ", "x"⟩
    [] none [⟨"city", "=", "a"⟩] (by decide) rfl

/-- C6: when `_getQuery` succeeds, the descriptor orders by the (mapped)
inequality field first and then by `name` whenever the filter set contains a
non-equality filter, and by `name` alone when it contains none. -/
theorem getQuery_ordering_spec (filters : List QueryFilter)
    (d : QueryDescriptor) (h : getQuery filters = .ok d) :
    ((∀ f ∈ filters, isIneqFilter f = false) → d.orders = ["name"]) ∧
    (∀ f ∈ filters, isIneqFilter f = true →
      ∃ fld, FIELDS f.field = some fld ∧ d.orders = [fld, "name"]) := by
  obtain ⟨ineq, fs, cs, hfmt, hbc, rfl⟩ := getQuery_ok_inv filters d h
  constructor
  · intro hno
    have hr := formatFiltersAux_ok_noineq filters none ineq fs hfmt hno
    subst hr
    rfl
  · intro f hf hi
    obtain ⟨fld, hF, hr⟩ := formatFiltersAux_ok_ineq filters none ineq fs hfmt f hf hi
    subst hr
    exact ⟨fld, hF, rfl⟩

/-- Witness for C6: a month> filter orders by month then name; an
equality-only filter set orders by name alone. -/
theorem getQuery_ordering_spec_witness :
    (∃ fld, FIELDS "MONTH" = some fld ∧
      (QueryDescriptor.mk ["month", "name"] [⟨"month", ">", .int 5⟩]).orders =
        [fld, "name"]) ∧
    (QueryDescriptor.mk ["name"] [⟨"city", "=", .str "Paris"⟩]).orders =
      ["name"] :=
  ⟨(getQuery_ordering_spec [⟨"MONTH", "GT", "5"⟩]
      ⟨["month", "name"], [⟨"month", ">", .int 5⟩]⟩ rfl).2
      ⟨"MONTH", "GT", "5"⟩ (by decide) (by decide),
   (getQuery_ordering_spec [⟨"CITY", "EQ", "Paris"⟩]
      ⟨["name"], [⟨"city", "=", .str "Paris"⟩]⟩ rfl).1 (by decide)⟩

/-- C8: every clause `_getQuery` builds for the numeric fields `month` and
`maxAttendees` carries an integer value parsed from the filter's string, and
a numeric-field filter whose string does not parse as an integer makes
compilation fail with the type-mismatch error. -/
theorem getQuery_numeric_parse_spec :
    (∀ (filters : List QueryFilter) (d : QueryDescriptor),
      getQuery filters = .ok d → ∀ c ∈ d.clauses,
      (c.field = "month" ∨ c.field = "maxAttendees") → ∃ n, c.value = .int n) ∧
    (∀ (filters : List QueryFilter) (ineq : Option String)
      (fs : List FormattedFilter) (f : FormattedFilter),
      formatFilters filters = .ok (ineq, fs) → f ∈ fs →
      (f.field = "month" ∨ f.field = "maxAttendees") →
      pythonInt f.value = none →
      getQuery filters = .error .typeMismatch) := by
  constructor
  · intro filters d h c hc hnum
    obtain ⟨ineq, fs, cs, hfmt, hbc, rfl⟩ := getQuery_ok_inv filters d h
    exact buildClauses_ok_int fs cs hbc c hc hnum
  · intro filters ineq fs f hfmt hf hnum hp
    have hbc := buildClauses_mem_fail fs f hf hnum hp
    simp [getQuery, hfmt, hbc]

/-- Witness for C8: a parsed month value yields an integer clause; a
non-numeric month value fails with the type-mismatch error. -/
theorem getQuery_numeric_parse_spec_witness :
    (∃ n, (FilterNode.mk "month" ">" (.int 5)).value = .int n) ∧
    getQuery [⟨"MONTH", "EQ", "abc"⟩] = .error .typeMismatch :=
  ⟨getQuery_numeric_parse_spec.1 [⟨"MONTH", "GT", "5"⟩]
      ⟨["month", "name"], [⟨"month", ">", .int 5⟩]⟩ rfl
      ⟨"month", ">", .int 5⟩ (by decide) (by decide),
   getQuery_numeric_parse_spec.2 [⟨"MONTH", "EQ", "abc"⟩] none
      [⟨"month", "=", "abc"⟩] ⟨"month", "=", "abc"⟩ rfl (by decide)
      (by decide) rfl⟩
